import Mathlib

/-!
Shallow embedding of the Tensalis Python SDK client
(`tensalis/client.py`, `tensalis/exceptions.py`):

* `VerificationResult` — wrapper over a raw response payload with the
  `status` / `is_blocked` / `is_verified` accessors;
* the exception taxonomy of `tensalis/exceptions.py`, flattened to a sum;
* `tensalisRequest` — the retry loop of `TensalisClient._request`, with the
  outcome of each HTTP attempt supplied externally and the performed sleeps
  recorded;
* `verify` — `TensalisClient.verify`, with the transport abstracted as a
  function from request payload to body-or-error and the requests it sends
  recorded;
* `verify_stream` — the streaming verification engine of
  `TensalisClient.verify_stream`, run over a materialized chunk source,
  producing an observable trace: the yielded units, the verification-call
  payloads in order, the number of chunks pulled, whether the run ended via
  the blocked early return, and any error that escaped mid-stream.
-/

/-- JSON scalar values as they appear in request/response payloads.
Strings and integers cover every field the development inspects. -/
inductive JValue where
  | jstr : String → JValue
  | jnum : Int → JValue
deriving DecidableEq

/-- A JSON object: association list from keys to values (a Python dict whose
keys are unique). -/
def Payload : Type := List (String × JValue)

instance : DecidableEq Payload :=
  inferInstanceAs (DecidableEq (List (String × JValue)))

/-- Python `dict.get(key)`: the first binding of `key`, if any. -/
def Payload.get (p : Payload) (k : String) : Option JValue :=
  (List.find? (fun kv => kv.1 == k) p).map (fun kv => kv.2)

/-- Python dict truthiness: an empty dict is falsy. -/
def Payload.isEmpty (p : Payload) : Bool :=
  List.isEmpty p

/-- `VerificationResult.__init__` stores the raw response payload
(`client.py:22`). -/
structure VerificationResult where
  _data : Payload
deriving DecidableEq

/-- The `status` property: `self._data.get("status", "VERIFIED")`
(`client.py:28`). -/
def VerificationResult.status (r : VerificationResult) : JValue :=
  (r._data.get "status").getD (JValue.jstr "VERIFIED")

/-- The `severity` property (`client.py:33`). -/
def VerificationResult.severity (r : VerificationResult) : Option JValue :=
  r._data.get "severity"

/-- The `reason` property (`client.py:38`). -/
def VerificationResult.reason (r : VerificationResult) : Option JValue :=
  r._data.get "reason"

/-- The `confidence` property (`client.py:43`). -/
def VerificationResult.confidence (r : VerificationResult) : Option JValue :=
  r._data.get "confidence"

/-- The `layer` property (`client.py:48`). -/
def VerificationResult.layer (r : VerificationResult) : Option JValue :=
  r._data.get "layer"

/-- The `latency_ms` property (`client.py:53`). -/
def VerificationResult.latency_ms (r : VerificationResult) : Option JValue :=
  r._data.get "latency_ms"

/-- The `is_blocked` property: `self.status == "BLOCKED"` (`client.py:58`). -/
def VerificationResult.is_blocked (r : VerificationResult) : Bool :=
  decide (r.status = JValue.jstr "BLOCKED")

/-- The `is_verified` property: `self.status == "VERIFIED"` (`client.py:63`). -/
def VerificationResult.is_verified (r : VerificationResult) : Bool :=
  decide (r.status = JValue.jstr "VERIFIED")

/-- `to_dict` returns (a copy of) the raw payload (`client.py:67`). -/
def VerificationResult.to_dict (r : VerificationResult) : Payload :=
  r._data

/-- The exception hierarchy of `tensalis/exceptions.py`, flattened to a sum.
`api` carries message, status code and parsed error body; `rateLimit` carries
message and `retry_after`; the raw-message constructors carry their message. -/
inductive TensalisErr where
  | base : String → TensalisErr
  | api : JValue → Nat → Payload → TensalisErr
  | authFailure : String → Payload → TensalisErr
  | rateLimit : String → Nat → TensalisErr
  | timeoutErr : String → TensalisErr
  | validation : String → TensalisErr
  | connFail : String → TensalisErr
deriving DecidableEq

/-- Whether an error is a `TensalisRateLimitError`. -/
def TensalisErr.is_rate_limit : TensalisErr → Bool
  | .rateLimit _ _ => true
  | _ => false

/-- Whether an error is a `TensalisValidationError`. -/
def TensalisErr.is_validation : TensalisErr → Bool
  | .validation _ => true
  | _ => false

/-- One HTTP response as `_request` observes it: status code, parsed
`Retry-After` header (`none` when absent), parsed JSON body (empty when the
response has no content). -/
structure HttpResponse where
  status_code : Nat
  retryAfter : Option Nat
  body : Payload
deriving DecidableEq

/-- Outcome of one attempt of `Session.request`: a response, a
`requests.Timeout`, or another `requests.RequestException` carrying its
message text. -/
inductive AttemptOutcome where
  | response : HttpResponse → AttemptOutcome
  | timedOut : AttemptOutcome
  | requestExc : String → AttemptOutcome
deriving DecidableEq

/-- Observable outcome of `TensalisClient._request`: the returned body or
raised error, the sleeps performed in order (`Retry-After` waits and
exponential backoff), and the number of attempts consumed. -/
structure RequestTrace where
  result : Except TensalisErr Payload
  sleeps : List Nat
  attemptsMade : Nat

/-- The retry loop of `_request` (`client.py:132-166`), one step per attempt.
`remaining` counts the attempts still allowed (`retries - attempt`);
`attempt` is the 0-based attempt index.  On 429 the client sleeps the
`Retry-After` duration (default 1) and retries without backoff; on any other
status ≥ 400 it raises an API error at once; on a timeout or request
exception it records the error and backs off `2 ^ attempt` seconds unless
this was the final attempt; when attempts run out it raises the recorded
error, or the generic base error if none was recorded. -/
def requestGo (outcomes : Nat → AttemptOutcome) (retries timeoutCfg : Nat) :
    Nat → Nat → Option TensalisErr → List Nat → RequestTrace
  | 0, attempt, lastError, sleeps =>
    ⟨.error (lastError.getD (.base "Request failed after retries")), sleeps, attempt⟩
  | remaining + 1, attempt, lastError, sleeps =>
    match outcomes attempt with
    | .response r =>
      if r.status_code = 429 then
        requestGo outcomes retries timeoutCfg remaining (attempt + 1) lastError
          (sleeps ++ [r.retryAfter.getD 1])
      else if 400 ≤ r.status_code then
        ⟨.error (.api ((r.body.get "error").getD (.jstr "Unknown error"))
            r.status_code r.body), sleeps, attempt + 1⟩
      else
        ⟨.ok r.body, sleeps, attempt + 1⟩
    | .timedOut =>
      requestGo outcomes retries timeoutCfg remaining (attempt + 1)
        (some (.timeoutErr ("Request timed out after " ++ toString timeoutCfg ++ "s")))
        (if attempt < retries - 1 then sleeps ++ [2 ^ attempt] else sleeps)
    | .requestExc msg =>
      requestGo outcomes retries timeoutCfg remaining (attempt + 1)
        (some (.base ("Request failed: " ++ msg)))
        (if attempt < retries - 1 then sleeps ++ [2 ^ attempt] else sleeps)

/-- `TensalisClient._request` run against a given sequence of per-attempt
HTTP outcomes, with the configured retry budget and timeout. -/
def tensalisRequest (outcomes : Nat → AttemptOutcome) (retries timeoutCfg : Nat) :
    RequestTrace :=
  requestGo outcomes retries timeoutCfg retries 0 none []

/-- Whether a `_request` run raised a `TensalisRateLimitError`. -/
def raisedRateLimit (t : RequestTrace) : Bool :=
  match t.result with
  | .error e => e.is_rate_limit
  | .ok _ => false

/-- The `context: Union[str, List[str]]` argument. -/
def CtxArg : Type := Sum String (List String)

/-- The `isinstance(context, str)` normalization: a string becomes a
singleton list (`client.py:192-193`, `client.py:255-256`). -/
def normalizeContext : CtxArg → List String
  | .inl s => [s]
  | .inr l => l

/-- The JSON body `verify` sends to `POST /verify` (`client.py:195-201`). -/
structure RequestPayload where
  response : String
  reference_facts : List String
  metadata : Option Payload
deriving DecidableEq

/-- Payload construction in `verify`: normalize the context, attach
`metadata` only when it is present and truthy (a non-empty dict). -/
def verify_request (response : String) (context : CtxArg)
    (metadata : Option Payload) : RequestPayload where
  response := response
  reference_facts := normalizeContext context
  metadata :=
    match metadata with
    | some m => if m.isEmpty then none else some m
    | none => none

/-- Observable outcome of one `TensalisClient.verify` call: the wrapped
result or propagated error, and the `_request` payloads sent. -/
structure VerifyTrace where
  result : Except TensalisErr VerificationResult
  requestsSent : List RequestPayload

/-- `TensalisClient.verify` (`client.py:168-204`): build the payload, send
it through the transport, wrap the returned body in a `VerificationResult`.
The transport abstracts `_request`; errors it produces propagate unchanged.
The single request the method sends is recorded in `requestsSent`. -/
def verify (transport : RequestPayload → Except TensalisErr Payload)
    (response : String) (context : CtxArg) (metadata : Option Payload) :
    VerifyTrace :=
  let p := verify_request response context metadata
  ⟨(transport p).map VerificationResult.mk, [p]⟩

/-- Whether a `verify` call raised a `TensalisValidationError`. -/
def raisedValidation (v : VerifyTrace) : Bool :=
  match v.result with
  | .error e => e.is_validation
  | .ok _ => false

/-- Whether a transport outcome is a `TensalisValidationError`. -/
def validationOutcome (r : Except TensalisErr Payload) : Bool :=
  match r with
  | .error e => e.is_validation
  | .ok _ => false

/-- Number of maximal whitespace-free runs in a character list; the `Bool`
records whether the previous character was inside a token. -/
def countRuns : List Char → Bool → Nat
  | [], _ => 0
  | c :: cs, inTok =>
    if c.isWhitespace then countRuns cs false
    else (if inTok then 0 else 1) + countRuns cs true

/-- Python `len(chunk.split())`: the number of whitespace-delimited tokens of
the chunk, i.e. of its maximal whitespace-free runs (`client.py:263`). -/
def tokenCount (s : String) : Nat :=
  countRuns s.data false

/-- Concatenation of a chunk list in order (the `accumulated` variable). -/
def concatChunks : List String → String
  | [] => ""
  | c :: cs => c ++ concatChunks cs

/-- Total whitespace-token count of a chunk list. -/
def tokensOf (l : List String) : Nat :=
  (l.map tokenCount).sum

/-- One element yielded by `verify_stream`: the dict
`{"text": ..., "status": ..., "result": ...}` (`client.py:267-271`, `278`). -/
structure EmittedUnit where
  text : String
  status : JValue
  result : Option Payload
deriving DecidableEq

/-- Observable trace of one `verify_stream` run: the yielded units in order,
the payloads of the verification calls in order, for each verification call
the number of chunks that had been pulled from the source at the moment the
call was made (`callPositions`, parallel to `verifyCalls` — position `n`
means the call happened while the `n`-th chunk, 1-based, was being
processed), the total number of chunks pulled, whether the run ended through
the blocked early return (`client.py:273-274`), and the error that escaped
mid-stream, if any. -/
structure StreamTrace where
  units : List EmittedUnit
  verifyCalls : List RequestPayload
  callPositions : List Nat
  chunksPulled : Nat
  blocked : Bool
  error : Option TensalisErr
deriving DecidableEq

/-- The loop body of `verify_stream` (`client.py:261-278`), recursing over
the chunk source with the `accumulated` and `token_count` state.  Each
pulled chunk is appended to the accumulation and its tokens counted; at
`token_count >= check_interval` the whole accumulation is verified: a
blocked verdict yields the terminal unit (carrying the chunk text, the
verdict status, and the full verdict dict) and stops; a non-blocked verdict
yields the chunk with the verdict status and resets the counter; below the
threshold the chunk passes through as PENDING.  An error raised by the
verification call propagates before anything is yielded for the chunk.
Besides the verification-call payloads the trace records, for each call, the
1-based position in the source of the chunk being processed when the call
was made (equivalently, how many chunks had been pulled at that moment);
positions produced by the recursion on the tail are shifted by one. -/
def streamGo (transport : RequestPayload → Except TensalisErr Payload)
    (ctx : List String) (check_interval : Nat) :
    String → Nat → List String → StreamTrace
  | _, _, [] => ⟨[], [], [], 0, false, none⟩
  | accumulated, token_count, chunk :: rest =>
    let acc := accumulated ++ chunk
    let tc := token_count + tokenCount chunk
    if check_interval ≤ tc then
      let v := verify transport acc (.inr ctx) none
      match v.result with
      | .error e => ⟨[], v.requestsSent, [1], 1, false, some e⟩
      | .ok r =>
        if r.is_blocked then
          ⟨[⟨chunk, r.status, some r.to_dict⟩], v.requestsSent, [1], 1, true, none⟩
        else
          let t := streamGo transport ctx check_interval acc 0 rest
          ⟨⟨chunk, r.status, none⟩ :: t.units, v.requestsSent ++ t.verifyCalls,
            1 :: t.callPositions.map (· + 1), t.chunksPulled + 1, t.blocked, t.error⟩
    else
      let t := streamGo transport ctx check_interval acc tc rest
      ⟨⟨chunk, JValue.jstr "PENDING", none⟩ :: t.units, t.verifyCalls,
        t.callPositions.map (· + 1), t.chunksPulled + 1, t.blocked, t.error⟩

/-- `TensalisClient.verify_stream` (`client.py:229-278`) over a materialized
chunk source: normalize the context once, then run the streaming loop with
empty accumulation and a zero token counter. -/
def verify_stream (transport : RequestPayload → Except TensalisErr Payload)
    (source : List String) (context : CtxArg) (check_interval : Nat) :
    StreamTrace :=
  streamGo transport (normalizeContext context) check_interval "" 0 source

/-- Whether the transport's verdict for a recorded call payload is blocked
(an errored call counts as not blocked). -/
def callBlocked (transport : RequestPayload → Except TensalisErr Payload)
    (p : RequestPayload) : Bool :=
  match transport p with
  | .ok d => (VerificationResult.mk d).is_blocked
  | .error _ => false

/-- Number of emitted units whose status is the string BLOCKED. -/
def countBlocked (units : List EmittedUnit) : Nat :=
  (units.filter (fun u => decide (u.status = JValue.jstr "BLOCKED"))).length

/-- Number of emitted units carrying a non-PENDING status. -/
def countNonPending (units : List EmittedUnit) : Nat :=
  (units.filter (fun u => !decide (u.status = JValue.jstr "PENDING"))).length

/-! ### Unfolding lemmas for the streaming loop -/

theorem streamGo_nil (transport : RequestPayload → Except TensalisErr Payload)
    (ctx : List String) (k : Nat) (acc : String) (tc : Nat) :
    streamGo transport ctx k acc tc [] = ⟨[], [], [], 0, false, none⟩ := rfl

theorem streamGo_cons_pending (transport : RequestPayload → Except TensalisErr Payload)
    (ctx : List String) (k : Nat) (acc : String) (tc : Nat) (chunk : String)
    (rest : List String) (h : ¬ k ≤ tc + tokenCount chunk) :
    streamGo transport ctx k acc tc (chunk :: rest) =
      { units := ⟨chunk, JValue.jstr "PENDING", none⟩ ::
          (streamGo transport ctx k (acc ++ chunk) (tc + tokenCount chunk) rest).units
        verifyCalls := (streamGo transport ctx k (acc ++ chunk) (tc + tokenCount chunk) rest).verifyCalls
        callPositions := (streamGo transport ctx k (acc ++ chunk) (tc + tokenCount chunk) rest).callPositions.map (· + 1)
        chunksPulled := (streamGo transport ctx k (acc ++ chunk) (tc + tokenCount chunk) rest).chunksPulled + 1
        blocked := (streamGo transport ctx k (acc ++ chunk) (tc + tokenCount chunk) rest).blocked
        error := (streamGo transport ctx k (acc ++ chunk) (tc + tokenCount chunk) rest).error } := by
  simp only [streamGo, if_neg h]

theorem streamGo_cons_error (transport : RequestPayload → Except TensalisErr Payload)
    (ctx : List String) (k : Nat) (acc : String) (tc : Nat) (chunk : String)
    (rest : List String) (e : TensalisErr) (h : k ≤ tc + tokenCount chunk)
    (he : transport (verify_request (acc ++ chunk) (.inr ctx) none) = .error e) :
    streamGo transport ctx k acc tc (chunk :: rest) =
      ⟨[], [verify_request (acc ++ chunk) (.inr ctx) none], [1], 1, false, some e⟩ := by
  simp only [streamGo, if_pos h, verify, he, Except.map]

theorem streamGo_cons_blocked (transport : RequestPayload → Except TensalisErr Payload)
    (ctx : List String) (k : Nat) (acc : String) (tc : Nat) (chunk : String)
    (rest : List String) (d : Payload) (h : k ≤ tc + tokenCount chunk)
    (hd : transport (verify_request (acc ++ chunk) (.inr ctx) none) = .ok d)
    (hb : (VerificationResult.mk d).is_blocked = true) :
    streamGo transport ctx k acc tc (chunk :: rest) =
      ⟨[⟨chunk, (VerificationResult.mk d).status, some d⟩],
        [verify_request (acc ++ chunk) (.inr ctx) none], [1], 1, true, none⟩ := by
  simp only [streamGo, if_pos h, verify, hd, Except.map, hb, if_pos]
  rfl

theorem streamGo_cons_check (transport : RequestPayload → Except TensalisErr Payload)
    (ctx : List String) (k : Nat) (acc : String) (tc : Nat) (chunk : String)
    (rest : List String) (d : Payload) (h : k ≤ tc + tokenCount chunk)
    (hd : transport (verify_request (acc ++ chunk) (.inr ctx) none) = .ok d)
    (hb : (VerificationResult.mk d).is_blocked = false) :
    streamGo transport ctx k acc tc (chunk :: rest) =
      { units := ⟨chunk, (VerificationResult.mk d).status, none⟩ ::
          (streamGo transport ctx k (acc ++ chunk) 0 rest).units
        verifyCalls := verify_request (acc ++ chunk) (.inr ctx) none ::
          (streamGo transport ctx k (acc ++ chunk) 0 rest).verifyCalls
        callPositions := 1 ::
          (streamGo transport ctx k (acc ++ chunk) 0 rest).callPositions.map (· + 1)
        chunksPulled := (streamGo transport ctx k (acc ++ chunk) 0 rest).chunksPulled + 1
        blocked := (streamGo transport ctx k (acc ++ chunk) 0 rest).blocked
        error := (streamGo transport ctx k (acc ++ chunk) 0 rest).error } := by
  simp only [streamGo, if_pos h, verify, hd, Except.map, hb, if_neg]
  rfl

/-! ### Structural invariants of the streaming loop -/

theorem streamGo_pulled (transport : RequestPayload → Except TensalisErr Payload)
    (ctx : List String) (k : Nat) :
    ∀ (src : List String) (acc : String) (tc : Nat),
      (streamGo transport ctx k acc tc src).chunksPulled =
        (streamGo transport ctx k acc tc src).units.length +
          (if (streamGo transport ctx k acc tc src).error.isSome then 1 else 0) := by
  intro src
  induction src with
  | nil => intro acc tc; simp [streamGo_nil]
  | cons chunk rest ih =>
    intro acc tc
    by_cases hle : k ≤ tc + tokenCount chunk
    · cases hd : transport (verify_request (acc ++ chunk) (.inr ctx) none) with
      | error e =>
        rw [streamGo_cons_error transport ctx k acc tc chunk rest e hle hd]
        simp
      | ok d =>
        cases hb : (VerificationResult.mk d).is_blocked with
        | true =>
          rw [streamGo_cons_blocked transport ctx k acc tc chunk rest d hle hd hb]
          simp
        | false =>
          rw [streamGo_cons_check transport ctx k acc tc chunk rest d hle hd hb]
          have h := ih (acc ++ chunk) 0
          simp only [List.length_cons]
          omega
    · rw [streamGo_cons_pending transport ctx k acc tc chunk rest hle]
      have h := ih (acc ++ chunk) (tc + tokenCount chunk)
      simp only [List.length_cons]
      omega

theorem streamGo_blocked_error (transport : RequestPayload → Except TensalisErr Payload)
    (ctx : List String) (k : Nat) :
    ∀ (src : List String) (acc : String) (tc : Nat),
      (streamGo transport ctx k acc tc src).blocked = true →
      (streamGo transport ctx k acc tc src).error = none := by
  intro src
  induction src with
  | nil => intro acc tc h; simp [streamGo_nil] at h
  | cons chunk rest ih =>
    intro acc tc
    by_cases hle : k ≤ tc + tokenCount chunk
    · cases hd : transport (verify_request (acc ++ chunk) (.inr ctx) none) with
      | error e =>
        rw [streamGo_cons_error transport ctx k acc tc chunk rest e hle hd]
        intro h; cases h
      | ok d =>
        cases hb : (VerificationResult.mk d).is_blocked with
        | true =>
          rw [streamGo_cons_blocked transport ctx k acc tc chunk rest d hle hd hb]
          intro _; rfl
        | false =>
          rw [streamGo_cons_check transport ctx k acc tc chunk rest d hle hd hb]
          exact ih (acc ++ chunk) 0
    · rw [streamGo_cons_pending transport ctx k acc tc chunk rest hle]
      exact ih (acc ++ chunk) (tc + tokenCount chunk)

theorem streamGo_pulled_le (transport : RequestPayload → Except TensalisErr Payload)
    (ctx : List String) (k : Nat) :
    ∀ (src : List String) (acc : String) (tc : Nat),
      (streamGo transport ctx k acc tc src).chunksPulled ≤ src.length := by
  intro src
  induction src with
  | nil => intro acc tc; simp [streamGo_nil]
  | cons chunk rest ih =>
    intro acc tc
    by_cases hle : k ≤ tc + tokenCount chunk
    · cases hd : transport (verify_request (acc ++ chunk) (.inr ctx) none) with
      | error e =>
        rw [streamGo_cons_error transport ctx k acc tc chunk rest e hle hd]
        simp
      | ok d =>
        cases hb : (VerificationResult.mk d).is_blocked with
        | true =>
          rw [streamGo_cons_blocked transport ctx k acc tc chunk rest d hle hd hb]
          simp
        | false =>
          rw [streamGo_cons_check transport ctx k acc tc chunk rest d hle hd hb]
          have h := ih (acc ++ chunk) 0
          simp only [List.length_cons]
          omega
    · rw [streamGo_cons_pending transport ctx k acc tc chunk rest hle]
      have h := ih (acc ++ chunk) (tc + tokenCount chunk)
      simp only [List.length_cons]
      omega

theorem streamGo_countBlocked (transport : RequestPayload → Except TensalisErr Payload)
    (ctx : List String) (k : Nat) :
    ∀ (src : List String) (acc : String) (tc : Nat),
      countBlocked (streamGo transport ctx k acc tc src).units =
        (if (streamGo transport ctx k acc tc src).blocked then 1 else 0) := by
  intro src
  induction src with
  | nil => intro acc tc; simp [streamGo_nil, countBlocked]
  | cons chunk rest ih =>
    intro acc tc
    by_cases hle : k ≤ tc + tokenCount chunk
    · cases hd : transport (verify_request (acc ++ chunk) (.inr ctx) none) with
      | error e =>
        rw [streamGo_cons_error transport ctx k acc tc chunk rest e hle hd]
        simp [countBlocked]
      | ok d =>
        cases hb : (VerificationResult.mk d).is_blocked with
        | true =>
          rw [streamGo_cons_blocked transport ctx k acc tc chunk rest d hle hd hb]
          have hs : (VerificationResult.mk d).status = JValue.jstr "BLOCKED" := by
            have := hb
            simp only [VerificationResult.is_blocked, decide_eq_true_eq] at this
            exact this
          simp [countBlocked, hs]
        | false =>
          rw [streamGo_cons_check transport ctx k acc tc chunk rest d hle hd hb]
          have hs : ¬ (VerificationResult.mk d).status = JValue.jstr "BLOCKED" := by
            simp only [VerificationResult.is_blocked, decide_eq_false_iff_not] at hb
            exact hb
          have h := ih (acc ++ chunk) 0
          simp [countBlocked, hs] at h ⊢
          exact h
    · rw [streamGo_cons_pending transport ctx k acc tc chunk rest hle]
      have h := ih (acc ++ chunk) (tc + tokenCount chunk)
      simp [countBlocked] at h ⊢
      exact h

theorem streamGo_not_blocked_calls (transport : RequestPayload → Except TensalisErr Payload)
    (ctx : List String) (k : Nat) :
    ∀ (src : List String) (acc : String) (tc : Nat),
      (streamGo transport ctx k acc tc src).blocked = false →
      ∀ p ∈ (streamGo transport ctx k acc tc src).verifyCalls,
        callBlocked transport p = false := by
  intro src
  induction src with
  | nil => intro acc tc _ p hp; simp [streamGo_nil] at hp
  | cons chunk rest ih =>
    intro acc tc
    by_cases hle : k ≤ tc + tokenCount chunk
    · cases hd : transport (verify_request (acc ++ chunk) (.inr ctx) none) with
      | error e =>
        rw [streamGo_cons_error transport ctx k acc tc chunk rest e hle hd]
        intro _ p hp
        simp at hp
        subst hp
        simp [callBlocked, hd]
      | ok d =>
        cases hb : (VerificationResult.mk d).is_blocked with
        | true =>
          rw [streamGo_cons_blocked transport ctx k acc tc chunk rest d hle hd hb]
          intro h; cases h
        | false =>
          rw [streamGo_cons_check transport ctx k acc tc chunk rest d hle hd hb]
          intro hnb p hp
          rcases List.mem_cons.mp hp with h | h
          · subst h; simp [callBlocked, hd, hb]
          · exact ih (acc ++ chunk) 0 hnb p h
    · rw [streamGo_cons_pending transport ctx k acc tc chunk rest hle]
      intro hnb p hp
      exact ih (acc ++ chunk) (tc + tokenCount chunk) hnb p hp

theorem streamGo_result_iff (transport : RequestPayload → Except TensalisErr Payload)
    (ctx : List String) (k : Nat) :
    ∀ (src : List String) (acc : String) (tc : Nat),
      ∀ u ∈ (streamGo transport ctx k acc tc src).units,
        (u.result = none ↔ ¬ u.status = JValue.jstr "BLOCKED") := by
  intro src
  induction src with
  | nil => intro acc tc u hu; simp [streamGo_nil] at hu
  | cons chunk rest ih =>
    intro acc tc
    by_cases hle : k ≤ tc + tokenCount chunk
    · cases hd : transport (verify_request (acc ++ chunk) (.inr ctx) none) with
      | error e =>
        rw [streamGo_cons_error transport ctx k acc tc chunk rest e hle hd]
        intro u hu; simp at hu
      | ok d =>
        cases hb : (VerificationResult.mk d).is_blocked with
        | true =>
          rw [streamGo_cons_blocked transport ctx k acc tc chunk rest d hle hd hb]
          intro u hu
          simp at hu
          subst hu
          have hs : (VerificationResult.mk d).status = JValue.jstr "BLOCKED" := by
            simpa [VerificationResult.is_blocked] using hb
          simp [hs]
        | false =>
          rw [streamGo_cons_check transport ctx k acc tc chunk rest d hle hd hb]
          intro u hu
          rcases List.mem_cons.mp hu with h | h
          · subst h
            have hs : ¬ (VerificationResult.mk d).status = JValue.jstr "BLOCKED" := by
              simpa [VerificationResult.is_blocked] using hb
            simp [hs]
          · exact ih (acc ++ chunk) 0 u h
    · rw [streamGo_cons_pending transport ctx k acc tc chunk rest hle]
      intro u hu
      rcases List.mem_cons.mp hu with h | h
      · subst h; simp
      · exact ih (acc ++ chunk) (tc + tokenCount chunk) u h

theorem streamGo_calls_prefix (transport : RequestPayload → Except TensalisErr Payload)
    (ctx : List String) (k : Nat) :
    ∀ (src : List String) (acc : String) (tc : Nat),
      ∀ p ∈ (streamGo transport ctx k acc tc src).verifyCalls,
        p.metadata = none ∧ p.reference_facts = ctx ∧
        ∃ n, 1 ≤ n ∧ n ≤ src.length ∧
          p.response = acc ++ concatChunks (src.take n) := by
  intro src
  induction src with
  | nil => intro acc tc p hp; simp [streamGo_nil] at hp
  | cons chunk rest ih =>
    intro acc tc
    have hhead : ∀ p : RequestPayload, p = verify_request (acc ++ chunk) (.inr ctx) none →
        p.metadata = none ∧ p.reference_facts = ctx ∧
        ∃ n, 1 ≤ n ∧ n ≤ (chunk :: rest).length ∧
          p.response = acc ++ concatChunks ((chunk :: rest).take n) := by
      intro p hp
      subst hp
      refine ⟨rfl, rfl, 1, le_refl 1, by simp, ?_⟩
      show acc ++ chunk = acc ++ concatChunks [chunk]
      simp [concatChunks, String.append_empty]
    have hshift : ∀ p : RequestPayload, (p.metadata = none ∧ p.reference_facts = ctx ∧
        ∃ n, 1 ≤ n ∧ n ≤ rest.length ∧
          p.response = (acc ++ chunk) ++ concatChunks (rest.take n)) →
        p.metadata = none ∧ p.reference_facts = ctx ∧
        ∃ n, 1 ≤ n ∧ n ≤ (chunk :: rest).length ∧
          p.response = acc ++ concatChunks ((chunk :: rest).take n) := by
      rintro p ⟨h1, h2, n, hn1, hn2, hresp⟩
      refine ⟨h1, h2, n + 1, by omega, by simp; omega, ?_⟩
      rw [List.take_succ_cons]
      show p.response = acc ++ (chunk ++ concatChunks (rest.take n))
      rw [← String.append_assoc]
      exact hresp
    by_cases hle : k ≤ tc + tokenCount chunk
    · cases hd : transport (verify_request (acc ++ chunk) (.inr ctx) none) with
      | error e =>
        rw [streamGo_cons_error transport ctx k acc tc chunk rest e hle hd]
        intro p hp
        simp at hp
        exact hhead p hp
      | ok d =>
        cases hb : (VerificationResult.mk d).is_blocked with
        | true =>
          rw [streamGo_cons_blocked transport ctx k acc tc chunk rest d hle hd hb]
          intro p hp
          simp at hp
          exact hhead p hp
        | false =>
          rw [streamGo_cons_check transport ctx k acc tc chunk rest d hle hd hb]
          intro p hp
          rcases List.mem_cons.mp hp with h | h
          · exact hhead p h
          · exact hshift p (ih (acc ++ chunk) 0 p h)
    · rw [streamGo_cons_pending transport ctx k acc tc chunk rest hle]
      intro p hp
      exact hshift p (ih (acc ++ chunk) (tc + tokenCount chunk) p hp)

theorem streamGo_take (transport : RequestPayload → Except TensalisErr Payload)
    (ctx : List String) (k : Nat) :
    ∀ (src : List String) (acc : String) (tc : Nat),
      (streamGo transport ctx k acc tc src).blocked = true →
      streamGo transport ctx k acc tc
          (src.take (streamGo transport ctx k acc tc src).chunksPulled) =
        streamGo transport ctx k acc tc src := by
  intro src
  induction src with
  | nil => intro acc tc h; simp [streamGo_nil] at h
  | cons chunk rest ih =>
    intro acc tc
    by_cases hle : k ≤ tc + tokenCount chunk
    · cases hd : transport (verify_request (acc ++ chunk) (.inr ctx) none) with
      | error e =>
        rw [streamGo_cons_error transport ctx k acc tc chunk rest e hle hd]
        intro h; cases h
      | ok d =>
        cases hb : (VerificationResult.mk d).is_blocked with
        | true =>
          rw [streamGo_cons_blocked transport ctx k acc tc chunk rest d hle hd hb]
          intro _
          show streamGo transport ctx k acc tc ((chunk :: rest).take 1) = _
          rw [List.take_succ_cons, List.take_zero]
          exact streamGo_cons_blocked transport ctx k acc tc chunk [] d hle hd hb
        | false =>
          rw [streamGo_cons_check transport ctx k acc tc chunk rest d hle hd hb]
          intro h
          rw [List.take_succ_cons]
          rw [streamGo_cons_check transport ctx k acc tc chunk
            (rest.take (streamGo transport ctx k (acc ++ chunk) 0 rest).chunksPulled) d hle hd hb]
          rw [ih (acc ++ chunk) 0 h]
    · rw [streamGo_cons_pending transport ctx k acc tc chunk rest hle]
      intro h
      rw [List.take_succ_cons]
      rw [streamGo_cons_pending transport ctx k acc tc chunk
        (rest.take (streamGo transport ctx k (acc ++ chunk) (tc + tokenCount chunk) rest).chunksPulled)
        hle]
      rw [ih (acc ++ chunk) (tc + tokenCount chunk) h]

theorem streamGo_blocked_decomp (transport : RequestPayload → Except TensalisErr Payload)
    (ctx : List String) (k : Nat) :
    ∀ (src : List String) (acc : String) (tc : Nat),
      (streamGo transport ctx k acc tc src).blocked = true →
      ∃ (upre : List EmittedUnit) (u : EmittedUnit)
        (cpre : List RequestPayload) (p : RequestPayload) (d : Payload),
        (streamGo transport ctx k acc tc src).units = upre ++ [u] ∧
        (streamGo transport ctx k acc tc src).verifyCalls = cpre ++ [p] ∧
        transport p = .ok d ∧
        (VerificationResult.mk d).is_blocked = true ∧
        u.status = (VerificationResult.mk d).status ∧
        u.result = some d ∧
        1 ≤ (streamGo transport ctx k acc tc src).chunksPulled ∧
        src.get? ((streamGo transport ctx k acc tc src).chunksPulled - 1) = some u.text ∧
        (∀ q ∈ cpre, callBlocked transport q = false) := by
  intro src
  induction src with
  | nil => intro acc tc h; simp [streamGo_nil] at h
  | cons chunk rest ih =>
    intro acc tc
    by_cases hle : k ≤ tc + tokenCount chunk
    · cases hd : transport (verify_request (acc ++ chunk) (.inr ctx) none) with
      | error e =>
        rw [streamGo_cons_error transport ctx k acc tc chunk rest e hle hd]
        intro h; cases h
      | ok d =>
        cases hb : (VerificationResult.mk d).is_blocked with
        | true =>
          rw [streamGo_cons_blocked transport ctx k acc tc chunk rest d hle hd hb]
          intro _
          exact ⟨[], ⟨chunk, (VerificationResult.mk d).status, some d⟩, [],
            verify_request (acc ++ chunk) (.inr ctx) none, d,
            rfl, rfl, hd, hb, rfl, rfl, le_refl 1, rfl, by intro q hq; cases hq⟩
        | false =>
          rw [streamGo_cons_check transport ctx k acc tc chunk rest d hle hd hb]
          intro h
          rcases ih (acc ++ chunk) 0 h with
            ⟨upre, u, cpre, p, d', hu, hc, hp, hpb, hst, hres, hge, hget, hcalls⟩
          refine ⟨⟨chunk, (VerificationResult.mk d).status, none⟩ :: upre, u,
            verify_request (acc ++ chunk) (.inr ctx) none :: cpre, p, d', ?_, ?_,
            hp, hpb, hst, hres, ?_, ?_, ?_⟩
          · simp [hu]
          · simp [hc]
          · show 1 ≤ (streamGo transport ctx k (acc ++ chunk) 0 rest).chunksPulled + 1
            omega
          · show (chunk :: rest).get?
                ((streamGo transport ctx k (acc ++ chunk) 0 rest).chunksPulled + 1 - 1) =
              some u.text
            have heq : (streamGo transport ctx k (acc ++ chunk) 0 rest).chunksPulled + 1 - 1 =
                ((streamGo transport ctx k (acc ++ chunk) 0 rest).chunksPulled - 1) + 1 := by
              omega
            rw [heq, List.get?_cons_succ]
            exact hget
          · intro q hq
            rcases List.mem_cons.mp hq with hq | hq
            · subst hq
              simp [callBlocked, hd, hb]
            · exact hcalls q hq
    · rw [streamGo_cons_pending transport ctx k acc tc chunk rest hle]
      intro h
      rcases ih (acc ++ chunk) (tc + tokenCount chunk) h with
        ⟨upre, u, cpre, p, d', hu, hc, hp, hpb, hst, hres, hge, hget, hcalls⟩
      refine ⟨⟨chunk, JValue.jstr "PENDING", none⟩ :: upre, u, cpre, p, d', ?_, ?_,
        hp, hpb, hst, hres, ?_, ?_, hcalls⟩
      · simp [hu]
      · simp [hc]
      · show 1 ≤ (streamGo transport ctx k (acc ++ chunk) (tc + tokenCount chunk) rest).chunksPulled + 1
        omega
      · show (chunk :: rest).get?
            ((streamGo transport ctx k (acc ++ chunk) (tc + tokenCount chunk) rest).chunksPulled + 1 - 1) =
          some u.text
        have heq : (streamGo transport ctx k (acc ++ chunk) (tc + tokenCount chunk) rest).chunksPulled + 1 - 1 =
            ((streamGo transport ctx k (acc ++ chunk) (tc + tokenCount chunk) rest).chunksPulled - 1) + 1 := by
          omega
        rw [heq, List.get?_cons_succ]
        exact hget

theorem tokensOf_nil : tokensOf [] = 0 := rfl

theorem lt_ceilDiv_iff (m k i : Nat) (hm : 0 < m) :
    i * m < k ↔ i < (k + m - 1) / m := by
  have h1 : i + 1 ≤ (k + m - 1) / m ↔ (i + 1) * m ≤ k + m - 1 :=
    Nat.le_div_iff_mul_le hm
  have h2 : (i + 1) * m = i * m + m := by ring
  omega

theorem streamGo_periodic (transport : RequestPayload → Except TensalisErr Payload)
    (ctx : List String) (k : Nat) (c : String)
    (htr : ∀ p, ∃ d, transport p = .ok d ∧
      (VerificationResult.mk d).status = JValue.jstr "VERIFIED")
    (hm : 0 < tokenCount c) (hk : 0 < k) :
    ∀ (n i : Nat) (acc : String), i * tokenCount c < k →
      (streamGo transport ctx k acc (i * tokenCount c) (List.replicate n c)).units.length = n ∧
      countNonPending
          (streamGo transport ctx k acc (i * tokenCount c) (List.replicate n c)).units =
        (i + n) / ((k + tokenCount c - 1) / tokenCount c) ∧
      (streamGo transport ctx k acc (i * tokenCount c) (List.replicate n c)).blocked = false ∧
      (streamGo transport ctx k acc (i * tokenCount c) (List.replicate n c)).error = none := by
  intro n
  induction n with
  | zero =>
    intro i acc hi
    have hlt : i < (k + tokenCount c - 1) / tokenCount c :=
      (lt_ceilDiv_iff (tokenCount c) k i hm).mp hi
    simp [streamGo_nil, countNonPending, Nat.div_eq_of_lt hlt]
  | succ n ih =>
    intro i acc hi
    rw [List.replicate_succ]
    by_cases hle : k ≤ i * tokenCount c + tokenCount c
    · rcases htr (verify_request (acc ++ c) (.inr ctx) none) with ⟨d, hd, hst⟩
      have hb : (VerificationResult.mk d).is_blocked = false := by
        simp [VerificationResult.is_blocked, hst]
      rw [streamGo_cons_check transport ctx k acc (i * tokenCount c) c
        (List.replicate n c) d hle hd hb]
      have hzero : (0 : Nat) * tokenCount c < k := by simpa using hk
      have hrec := ih 0 (acc ++ c) hzero
      rw [Nat.zero_mul] at hrec
      rcases hrec with ⟨hlen, hcount, hblk, herr⟩
      have hcc : (k + tokenCount c - 1) / tokenCount c = i + 1 := by
        have h1 : i < (k + tokenCount c - 1) / tokenCount c :=
          (lt_ceilDiv_iff (tokenCount c) k i hm).mp hi
        have h2 : ¬ (i + 1) * tokenCount c < k := by
          have hmul : (i + 1) * tokenCount c = i * tokenCount c + tokenCount c := by ring
          omega
        have h3 : ¬ (i + 1) < (k + tokenCount c - 1) / tokenCount c := fun hcon =>
          h2 ((lt_ceilDiv_iff (tokenCount c) k (i + 1) hm).mpr hcon)
        omega
      refine ⟨by simp [hlen], ?_, hblk, herr⟩
      have hstep : countNonPending (⟨c, (VerificationResult.mk d).status, none⟩ ::
          (streamGo transport ctx k (acc ++ c) 0 (List.replicate n c)).units) =
          countNonPending
            (streamGo transport ctx k (acc ++ c) 0 (List.replicate n c)).units + 1 := by
        simp [countNonPending, hst]
      show countNonPending (⟨c, (VerificationResult.mk d).status, none⟩ ::
          (streamGo transport ctx k (acc ++ c) 0 (List.replicate n c)).units) = _
      rw [hstep, hcount, hcc]
      have hpos : 0 < i + 1 := Nat.succ_pos i
      have heq : (0 + n) + (i + 1) = i + (n + 1) := by ring
      calc (0 + n) / (i + 1) + 1
          = ((0 + n) + (i + 1)) / (i + 1) := (Nat.add_div_right (0 + n) hpos).symm
        _ = (i + (n + 1)) / (i + 1) := by rw [heq]
    · rw [streamGo_cons_pending transport ctx k acc (i * tokenCount c) c
        (List.replicate n c) hle]
      have hisucc : (i + 1) * tokenCount c = i * tokenCount c + tokenCount c := by ring
      have hi' : (i + 1) * tokenCount c < k := by omega
      have hrec := ih (i + 1) (acc ++ c) hi'
      rw [hisucc] at hrec
      rcases hrec with ⟨hlen, hcount, hblk, herr⟩
      refine ⟨by simp [hlen], ?_, hblk, herr⟩
      have hstep : countNonPending (⟨c, JValue.jstr "PENDING", none⟩ ::
          (streamGo transport ctx k (acc ++ c) (i * tokenCount c + tokenCount c)
            (List.replicate n c)).units) =
          countNonPending (streamGo transport ctx k (acc ++ c)
            (i * tokenCount c + tokenCount c) (List.replicate n c)).units := by
        simp [countNonPending]
      show countNonPending (⟨c, JValue.jstr "PENDING", none⟩ ::
          (streamGo transport ctx k (acc ++ c) (i * tokenCount c + tokenCount c)
            (List.replicate n c)).units) = _
      rw [hstep, hcount]
      congr 1
      ring

theorem streamGo_callPositions (transport : RequestPayload → Except TensalisErr Payload)
    (ctx : List String) (k : Nat) :
    ∀ (src : List String) (acc : String) (tc : Nat),
      (streamGo transport ctx k acc tc src).callPositions.length =
        (streamGo transport ctx k acc tc src).verifyCalls.length ∧
      List.Pairwise (· < ·) (streamGo transport ctx k acc tc src).callPositions ∧
      (∀ pos ∈ (streamGo transport ctx k acc tc src).callPositions,
        1 ≤ pos ∧ pos ≤ (streamGo transport ctx k acc tc src).chunksPulled ∧
        pos ≤ src.length) ∧
      (∀ pq ∈ List.zip (streamGo transport ctx k acc tc src).callPositions
          (streamGo transport ctx k acc tc src).verifyCalls,
        pq.2 = verify_request (acc ++ concatChunks (src.take pq.1)) (.inr ctx) none) := by
  intro src
  induction src with
  | nil =>
    intro acc tc
    refine ⟨rfl, List.Pairwise.nil, ?_, ?_⟩
    · intro pos hpos; simp [streamGo_nil] at hpos
    · intro pq hpq; simp [streamGo_nil] at hpq
  | cons chunk rest ih =>
    intro acc tc
    have hhead : verify_request (acc ++ chunk) (.inr ctx) none =
        verify_request (acc ++ concatChunks ((chunk :: rest).take 1)) (.inr ctx) none := by
      have : acc ++ concatChunks ((chunk :: rest).take 1) = acc ++ chunk := by
        show acc ++ (chunk ++ "") = acc ++ chunk
        rw [String.append_empty]
      rw [this]
    by_cases hle : k ≤ tc + tokenCount chunk
    · cases hd : transport (verify_request (acc ++ chunk) (.inr ctx) none) with
      | error e =>
        rw [streamGo_cons_error transport ctx k acc tc chunk rest e hle hd]
        refine ⟨rfl, List.pairwise_singleton _ _, ?_, ?_⟩
        · intro pos hpos
          simp at hpos
          subst hpos
          exact ⟨le_refl 1, le_refl 1, by simp⟩
        · intro pq hpq
          simp only [List.zip_cons_cons, List.zip_nil_right] at hpq
          simp at hpq
          subst hpq
          exact hhead
      | ok d =>
        cases hb : (VerificationResult.mk d).is_blocked with
        | true =>
          rw [streamGo_cons_blocked transport ctx k acc tc chunk rest d hle hd hb]
          refine ⟨rfl, List.pairwise_singleton _ _, ?_, ?_⟩
          · intro pos hpos
            simp at hpos
            subst hpos
            exact ⟨le_refl 1, le_refl 1, by simp⟩
          · intro pq hpq
            simp only [List.zip_cons_cons, List.zip_nil_right] at hpq
            simp at hpq
            subst hpq
            exact hhead
        | false =>
          rw [streamGo_cons_check transport ctx k acc tc chunk rest d hle hd hb]
          rcases ih (acc ++ chunk) 0 with ⟨ih1, ih2, ih3, ih4⟩
          refine ⟨by simp [ih1], ?_, ?_, ?_⟩
          · rw [List.pairwise_cons]
            constructor
            · intro x hx
              rcases List.mem_map.mp hx with ⟨y, hy, rfl⟩
              have := (ih3 y hy).1
              omega
            · rw [List.pairwise_map]
              exact ih2.imp (by intro a b hab; omega)
          · intro pos hpos
            rcases List.mem_cons.mp hpos with hpos | hpos
            · subst hpos
              refine ⟨le_refl 1, ?_, by simp⟩
              show 1 ≤ (streamGo transport ctx k (acc ++ chunk) 0 rest).chunksPulled + 1
              omega
            · rcases List.mem_map.mp hpos with ⟨y, hy, rfl⟩
              rcases ih3 y hy with ⟨hy1, hy2, hy3⟩
              refine ⟨by omega, ?_, by simp; omega⟩
              show y + 1 ≤ (streamGo transport ctx k (acc ++ chunk) 0 rest).chunksPulled + 1
              omega
          · intro pq hpq
            rw [List.zip_cons_cons] at hpq
            rcases List.mem_cons.mp hpq with hpq | hpq
            · subst hpq
              exact hhead
            · rw [List.zip_map_left] at hpq
              rcases List.mem_map.mp hpq with ⟨ab, hab, rfl⟩
              have hcall := ih4 ab hab
              show ab.2 = verify_request
                (acc ++ concatChunks ((chunk :: rest).take (ab.1 + 1))) (.inr ctx) none
              rw [List.take_succ_cons]
              have hassoc : acc ++ concatChunks (chunk :: rest.take ab.1) =
                  (acc ++ chunk) ++ concatChunks (rest.take ab.1) := by
                show acc ++ (chunk ++ concatChunks (rest.take ab.1)) = _
                rw [String.append_assoc]
              rw [hassoc]
              exact hcall
    · rw [streamGo_cons_pending transport ctx k acc tc chunk rest hle]
      rcases ih (acc ++ chunk) (tc + tokenCount chunk) with ⟨ih1, ih2, ih3, ih4⟩
      refine ⟨by simp [ih1], ?_, ?_, ?_⟩
      · rw [List.pairwise_map]
        exact ih2.imp (by intro a b hab; omega)
      · intro pos hpos
        rcases List.mem_map.mp hpos with ⟨y, hy, rfl⟩
        rcases ih3 y hy with ⟨hy1, hy2, hy3⟩
        refine ⟨by omega, ?_, by simp; omega⟩
        show y + 1 ≤ (streamGo transport ctx k (acc ++ chunk)
          (tc + tokenCount chunk) rest).chunksPulled + 1
        omega
      · intro pq hpq
        rw [List.zip_map_left] at hpq
        rcases List.mem_map.mp hpq with ⟨ab, hab, rfl⟩
        have hcall := ih4 ab hab
        show ab.2 = verify_request
          (acc ++ concatChunks ((chunk :: rest).take (ab.1 + 1))) (.inr ctx) none
        rw [List.take_succ_cons]
        have hassoc : acc ++ concatChunks (chunk :: rest.take ab.1) =
            (acc ++ chunk) ++ concatChunks (rest.take ab.1) := by
          show acc ++ (chunk ++ concatChunks (rest.take ab.1)) = _
          rw [String.append_assoc]
        rw [hassoc]
        exact hcall

theorem verify_stream_def (transport : RequestPayload → Except TensalisErr Payload)
    (source : List String) (context : CtxArg) (k : Nat) :
    verify_stream transport source context k =
      streamGo transport (normalizeContext context) k "" 0 source := rfl

theorem countBlocked_append (a b : List EmittedUnit) :
    countBlocked (a ++ b) = countBlocked a + countBlocked b := by
  simp [countBlocked, List.filter_append]

/-! ### The claims -/

/-- C1: for every chunk source and context, once a verification call made
inside `verify_stream` returns a blocked verdict, the engine emits exactly
one terminal unit and the sequence terminates: the run ends through the
blocked early return; the emitted units contain exactly one BLOCKED unit and
it is the last one; every pulled chunk produced exactly one unit; re-running
the engine on just the consumed prefix of the source reproduces the entire
trace (the remaining elements of the source are untouched — no further
chunks are pulled); and the blocking call is the last verification call made
(no further verification calls are made, and no earlier call was blocked). -/
theorem claim_C1_block_terminates
    (transport : RequestPayload → Except TensalisErr Payload)
    (src : List String) (context : CtxArg) (k : Nat)
    (h : ∃ p ∈ (verify_stream transport src context k).verifyCalls,
      callBlocked transport p = true) :
    (verify_stream transport src context k).blocked = true ∧
    countBlocked (verify_stream transport src context k).units = 1 ∧
    (∃ upre u, (verify_stream transport src context k).units = upre ++ [u] ∧
      u.status = JValue.jstr "BLOCKED" ∧ countBlocked upre = 0) ∧
    (verify_stream transport src context k).chunksPulled =
      (verify_stream transport src context k).units.length ∧
    verify_stream transport
        (src.take (verify_stream transport src context k).chunksPulled) context k =
      verify_stream transport src context k ∧
    (∃ cpre p, (verify_stream transport src context k).verifyCalls = cpre ++ [p] ∧
      callBlocked transport p = true ∧ ∀ q ∈ cpre, callBlocked transport q = false) := by
  rw [verify_stream_def] at h ⊢
  rw [verify_stream_def]
  have hb : (streamGo transport (normalizeContext context) k "" 0 src).blocked = true := by
    by_contra hfalse
    have hnb : (streamGo transport (normalizeContext context) k "" 0 src).blocked = false :=
      Bool.not_eq_true _ ▸ Bool.eq_false_iff.mpr hfalse
    rcases h with ⟨p, hp, hcb⟩
    have hzero := streamGo_not_blocked_calls transport (normalizeContext context) k
      src "" 0 hnb p hp
    rw [hzero] at hcb
    cases hcb
  rcases streamGo_blocked_decomp transport (normalizeContext context) k src "" 0 hb with
    ⟨upre, u, cpre, p, d, hu, hc, hpd, hpb, hst, hres, hge, hget, hcalls⟩
  have hustat : u.status = JValue.jstr "BLOCKED" := by
    rw [hst]
    exact of_decide_eq_true hpb
  have hcount : countBlocked (streamGo transport (normalizeContext context) k "" 0 src).units
      = 1 := by
    rw [streamGo_countBlocked transport (normalizeContext context) k src "" 0, hb]
    rfl
  refine ⟨hb, hcount, ⟨upre, u, hu, hustat, ?_⟩, ?_, ?_, cpre, p, hc, ?_, hcalls⟩
  · have h1 : countBlocked [u] = 1 := by simp [countBlocked, hustat]
    rw [hu, countBlocked_append, h1] at hcount
    omega
  · have herr := streamGo_blocked_error transport (normalizeContext context) k src "" 0 hb
    have hp := streamGo_pulled transport (normalizeContext context) k src "" 0
    rw [herr] at hp
    simpa using hp
  · exact streamGo_take transport (normalizeContext context) k src "" 0 hb
  · simp [callBlocked, hpd, hpb]

/-- Witness for C1 at a concrete input: an always-BLOCKED transport, source
`["a b", "c"]`, `check_interval = 1`; the first chunk triggers a blocked
check, so the hypothesis holds and all conclusions follow. -/
theorem claim_C1_block_terminates_witness :
    (∃ p ∈ (verify_stream (fun _ => Except.ok [("status", JValue.jstr "BLOCKED")])
        ["a b", "c"] (.inr ["x"]) 1).verifyCalls,
      callBlocked (fun _ => Except.ok [("status", JValue.jstr "BLOCKED")]) p = true) ∧
    ((verify_stream (fun _ => Except.ok [("status", JValue.jstr "BLOCKED")])
        ["a b", "c"] (.inr ["x"]) 1).blocked = true ∧
      countBlocked (verify_stream (fun _ => Except.ok [("status", JValue.jstr "BLOCKED")])
        ["a b", "c"] (.inr ["x"]) 1).units = 1 ∧
      (∃ upre u, (verify_stream (fun _ => Except.ok [("status", JValue.jstr "BLOCKED")])
          ["a b", "c"] (.inr ["x"]) 1).units = upre ++ [u] ∧
        u.status = JValue.jstr "BLOCKED" ∧ countBlocked upre = 0) ∧
      (verify_stream (fun _ => Except.ok [("status", JValue.jstr "BLOCKED")])
          ["a b", "c"] (.inr ["x"]) 1).chunksPulled =
        (verify_stream (fun _ => Except.ok [("status", JValue.jstr "BLOCKED")])
          ["a b", "c"] (.inr ["x"]) 1).units.length ∧
      verify_stream (fun _ => Except.ok [("status", JValue.jstr "BLOCKED")])
          (["a b", "c"].take (verify_stream
            (fun _ => Except.ok [("status", JValue.jstr "BLOCKED")])
            ["a b", "c"] (.inr ["x"]) 1).chunksPulled) (.inr ["x"]) 1 =
        verify_stream (fun _ => Except.ok [("status", JValue.jstr "BLOCKED")])
          ["a b", "c"] (.inr ["x"]) 1 ∧
      (∃ cpre p, (verify_stream (fun _ => Except.ok [("status", JValue.jstr "BLOCKED")])
          ["a b", "c"] (.inr ["x"]) 1).verifyCalls = cpre ++ [p] ∧
        callBlocked (fun _ => Except.ok [("status", JValue.jstr "BLOCKED")]) p = true ∧
        ∀ q ∈ cpre, callBlocked
          (fun _ => Except.ok [("status", JValue.jstr "BLOCKED")]) q = false)) :=
  ⟨by decide, claim_C1_block_terminates _ _ _ _ (by decide)⟩

/-- C2: in `verify_stream`, whenever the token counter reaches the check
interval, the verification call is made against the entire text accumulated
since the session started together with the session's normalized context and
no metadata — never against only the current chunk.  The trace records, for
each verification call, how many chunks had been pulled from the source at
the moment the call was made (`callPositions`, positionally parallel to
`verifyCalls`); these positions are strictly increasing, each is between 1
and the total number of chunks pulled, and the call made while the
`pos`-th chunk was being processed carries exactly the concatenation of the
first `pos` chunks — every chunk consumed so far at call time. -/
theorem claim_C2_checks_accumulated
    (transport : RequestPayload → Except TensalisErr Payload)
    (src : List String) (context : CtxArg) (k : Nat) :
    (verify_stream transport src context k).callPositions.length =
      (verify_stream transport src context k).verifyCalls.length ∧
    List.Pairwise (· < ·) (verify_stream transport src context k).callPositions ∧
    (∀ pos ∈ (verify_stream transport src context k).callPositions,
      1 ≤ pos ∧ pos ≤ (verify_stream transport src context k).chunksPulled ∧
      pos ≤ src.length) ∧
    (∀ pq ∈ List.zip (verify_stream transport src context k).callPositions
        (verify_stream transport src context k).verifyCalls,
      pq.2 = ⟨concatChunks (src.take pq.1), normalizeContext context, none⟩) := by
  rw [verify_stream_def]
  rcases streamGo_callPositions transport (normalizeContext context) k src "" 0 with
    ⟨h1, h2, h3, h4⟩
  refine ⟨h1, h2, h3, ?_⟩
  intro pq hpq
  rw [h4 pq hpq]
  show verify_request ("" ++ concatChunks (src.take pq.1))
      (.inr (normalizeContext context)) none = _
  rw [String.empty_append]
  rfl

/-- Witness for C2 at a concrete input: source `["a b", "c d"]` with
`check_interval = 2` and an always-VERIFIED transport checks after each
chunk.  The second call was made while chunk 2 was being processed (the pair
`(2, call)` is in the position/call zip), and that call's payload is exactly
the concatenation of the first 2 chunks — the full accumulation `"a bc d"`
with the normalized singleton context — not just the current chunk. -/
theorem claim_C2_checks_accumulated_witness :
    ((2, (⟨"a bc d", ["x"], none⟩ : RequestPayload)) ∈
      List.zip (verify_stream (fun _ => Except.ok [("status", JValue.jstr "VERIFIED")] :
          RequestPayload → Except TensalisErr Payload)
        ["a b", "c d"] (.inl "x") 2).callPositions
        (verify_stream (fun _ => Except.ok [("status", JValue.jstr "VERIFIED")] :
          RequestPayload → Except TensalisErr Payload)
        ["a b", "c d"] (.inl "x") 2).verifyCalls) ∧
    ((2, (⟨"a bc d", ["x"], none⟩ : RequestPayload)).2 =
      (⟨concatChunks ((["a b", "c d"] : List String).take
          (2, (⟨"a bc d", ["x"], none⟩ : RequestPayload)).1),
        normalizeContext (.inl "x"), none⟩ : RequestPayload)) :=
  ⟨by decide, (claim_C2_checks_accumulated
    (fun _ => Except.ok [("status", JValue.jstr "VERIFIED")] :
      RequestPayload → Except TensalisErr Payload)
    ["a b", "c d"] (.inl "x") 2).2.2.2
    (2, ⟨"a bc d", ["x"], none⟩) (by decide)⟩

/-- C3 counterexample: the claim says the terminal blocked unit carries no
raw chunk text, but at this concrete input the terminal unit's text field is
the current chunk `"a b"`, which is not the empty string — the chunk's raw
text IS emitted as part of the terminal unit. -/
theorem claim_C3_counterexample :
    (verify_stream (fun _ => Except.ok [("status", JValue.jstr "BLOCKED")])
        ["a b"] (.inr ["c"]) 1).units =
      [⟨"a b", JValue.jstr "BLOCKED", some [("status", JValue.jstr "BLOCKED")]⟩] ∧
    ¬ ("a b" : String) = "" :=
  ⟨by decide, by decide⟩

/-- C3 (amended): when a blocked verdict is detected mid-stream, the single
terminal unit `verify_stream` emits carries the blocking verdict (the full
verdict payload in its result field, with status BLOCKED) and ALSO carries
the current chunk's raw text in its text field. -/
theorem claim_C3_terminal_unit
    (transport : RequestPayload → Except TensalisErr Payload)
    (src : List String) (context : CtxArg) (k : Nat)
    (h : (verify_stream transport src context k).blocked = true) :
    ∃ upre u cpre p d,
      (verify_stream transport src context k).units = upre ++ [u] ∧
      (verify_stream transport src context k).verifyCalls = cpre ++ [p] ∧
      transport p = .ok d ∧
      (VerificationResult.mk d).is_blocked = true ∧
      u.result = some d ∧
      u.status = JValue.jstr "BLOCKED" ∧
      src.get? ((verify_stream transport src context k).chunksPulled - 1) =
        some u.text ∧
      countBlocked (verify_stream transport src context k).units = 1 := by
  rw [verify_stream_def] at h ⊢
  rcases streamGo_blocked_decomp transport (normalizeContext context) k src "" 0 h with
    ⟨upre, u, cpre, p, d, hu, hc, hpd, hpb, hst, hres, hge, hget, hcalls⟩
  have hustat : u.status = JValue.jstr "BLOCKED" := by
    rw [hst]
    exact of_decide_eq_true hpb
  have hcount : countBlocked (streamGo transport (normalizeContext context) k "" 0 src).units
      = 1 := by
    rw [streamGo_countBlocked transport (normalizeContext context) k src "" 0, h]
    rfl
  exact ⟨upre, u, cpre, p, d, hu, hc, hpd, hpb, hres, hustat, hget, hcount⟩

/-- Witness for C3's amended theorem at a concrete input: an always-BLOCKED
transport on source `["a b"]` with `check_interval = 1` ends blocked, and the
terminal unit carries both the verdict payload and the chunk text. -/
theorem claim_C3_terminal_unit_witness :
    (verify_stream (fun _ => Except.ok [("status", JValue.jstr "BLOCKED")])
        ["a b"] (.inr ["c"]) 1).blocked = true ∧
    (∃ upre u cpre p d,
      (verify_stream (fun _ => Except.ok [("status", JValue.jstr "BLOCKED")])
        ["a b"] (.inr ["c"]) 1).units = upre ++ [u] ∧
      (verify_stream (fun _ => Except.ok [("status", JValue.jstr "BLOCKED")])
        ["a b"] (.inr ["c"]) 1).verifyCalls = cpre ++ [p] ∧
      (fun _ => Except.ok [("status", JValue.jstr "BLOCKED")] :
        RequestPayload → Except TensalisErr Payload) p = .ok d ∧
      (VerificationResult.mk d).is_blocked = true ∧
      u.result = some d ∧
      u.status = JValue.jstr "BLOCKED" ∧
      (["a b"] : List String).get?
        ((verify_stream (fun _ => Except.ok [("status", JValue.jstr "BLOCKED")])
          ["a b"] (.inr ["c"]) 1).chunksPulled - 1) = some u.text ∧
      countBlocked (verify_stream (fun _ => Except.ok [("status", JValue.jstr "BLOCKED")])
        ["a b"] (.inr ["c"]) 1).units = 1) :=
  ⟨by decide, claim_C3_terminal_unit _ _ _ _ (by decide)⟩

/-- C4: a verification check fires exactly when the tokens-since-last-check
counter is at least `check_interval`, and the counter then resets to 0
rather than being decremented by the interval: streaming `n` copies of a
chunk of `t` tokens with an always-VERIFIED verifier emits exactly `n`
units, of which exactly `n / ⌈check_interval / t⌉` carry a non-PENDING
status (the reset-to-0 cadence; a subtract-the-interval cadence would give a
different count whenever a check overshoots the interval), none is
terminal-blocked, and the run ends unblocked and without error.  At
`n = 100`, `t = 1`, `check_interval = 25` this gives exactly 100 units with
exactly 4 non-PENDING and none blocked. -/
theorem claim_C4_check_cadence
    (transport : RequestPayload → Except TensalisErr Payload)
    (context : CtxArg) (k : Nat) (c : String) (n : Nat)
    (htr : ∀ p, ∃ d, transport p = .ok d ∧
      (VerificationResult.mk d).status = JValue.jstr "VERIFIED")
    (hm : 0 < tokenCount c) (hk : 0 < k) :
    (verify_stream transport (List.replicate n c) context k).units.length = n ∧
    countNonPending (verify_stream transport (List.replicate n c) context k).units =
      n / ((k + tokenCount c - 1) / tokenCount c) ∧
    countBlocked (verify_stream transport (List.replicate n c) context k).units = 0 ∧
    (verify_stream transport (List.replicate n c) context k).blocked = false ∧
    (verify_stream transport (List.replicate n c) context k).error = none := by
  rw [verify_stream_def]
  have hzero : (0 : Nat) * tokenCount c < k := by simpa using hk
  have h := streamGo_periodic transport (normalizeContext context) k c htr hm hk n 0 "" hzero
  rw [Nat.zero_mul] at h
  rcases h with ⟨hlen, hcount, hblk, herr⟩
  refine ⟨hlen, by simpa using hcount, ?_, hblk, herr⟩
  rw [streamGo_countBlocked transport (normalizeContext context) k
    (List.replicate n c) "" 0, hblk]
  rfl

/-- Witness for C4 at the spec's end-to-end scenario: 100 single-token
chunks, `check_interval = 25`, an always-VERIFIED verifier — exactly 100
units, exactly `100 / 25 = 4` non-PENDING, zero blocked. -/
theorem claim_C4_check_cadence_witness :
    (∀ p, ∃ d, (fun _ => Except.ok [("status", JValue.jstr "VERIFIED")] :
        RequestPayload → Except TensalisErr Payload) p = .ok d ∧
      (VerificationResult.mk d).status = JValue.jstr "VERIFIED") ∧
    0 < tokenCount "w " ∧ 0 < 25 ∧
    (verify_stream (fun _ => Except.ok [("status", JValue.jstr "VERIFIED")] :
        RequestPayload → Except TensalisErr Payload)
      (List.replicate 100 "w ") (.inr ["x"]) 25).units.length = 100 ∧
    countNonPending (verify_stream
      (fun _ => Except.ok [("status", JValue.jstr "VERIFIED")] :
        RequestPayload → Except TensalisErr Payload)
      (List.replicate 100 "w ") (.inr ["x"]) 25).units = 4 ∧
    countBlocked (verify_stream
      (fun _ => Except.ok [("status", JValue.jstr "VERIFIED")] :
        RequestPayload → Except TensalisErr Payload)
      (List.replicate 100 "w ") (.inr ["x"]) 25).units = 0 := by
  have h := claim_C4_check_cadence
    (fun _ => Except.ok [("status", JValue.jstr "VERIFIED")] :
      RequestPayload → Except TensalisErr Payload)
    (.inr ["x"]) 25 "w " 100
    (fun p => ⟨[("status", JValue.jstr "VERIFIED")], rfl, rfl⟩)
    (by decide) (by decide)
  rcases h with ⟨h1, h2, h3, _, _⟩
  exact ⟨fun p => ⟨[("status", JValue.jstr "VERIFIED")], rfl, rfl⟩,
    by decide, by decide, h1, by simpa using h2, h3⟩

/-- C6 counterexample: the claimed biconditional "status absent in the
payload ⟺ is_verified is true" fails: the payload `{"status": "VERIFIED"}`
has a status key present, yet `is_verified` is true. -/
theorem claim_C6_counterexample :
    (VerificationResult.mk [("status", JValue.jstr "VERIFIED")]).is_verified = true ∧
    ¬ Payload.get [("status", JValue.jstr "VERIFIED")] "status" = none :=
  ⟨by decide, by decide⟩

/-- C6 (amended): for every payload, `is_blocked` holds iff the payload's
status entry is the string BLOCKED, `is_verified` holds iff the status entry
is the string VERIFIED or is absent, and a payload with no status key is
treated as VERIFIED — absence implies `is_verified`, but the converse
direction of the spec's biconditional fails since an explicit VERIFIED
status also verifies. -/
theorem claim_C6_verdict_predicates (p : Payload) :
    ((VerificationResult.mk p).is_blocked = true ↔
      p.get "status" = some (JValue.jstr "BLOCKED")) ∧
    ((VerificationResult.mk p).is_verified = true ↔
      (p.get "status" = some (JValue.jstr "VERIFIED") ∨ p.get "status" = none)) ∧
    (p.get "status" = none → (VerificationResult.mk p).is_verified = true) := by
  have hdata : (VerificationResult.mk p)._data = p := rfl
  refine ⟨?_, ?_, ?_⟩
  · cases hs : p.get "status" with
    | none =>
      simp [VerificationResult.is_blocked, VerificationResult.status, hdata, hs]
    | some v =>
      simp [VerificationResult.is_blocked, VerificationResult.status, hdata, hs]
  · cases hs : p.get "status" with
    | none =>
      simp [VerificationResult.is_verified, VerificationResult.status, hdata, hs]
    | some v =>
      simp [VerificationResult.is_verified, VerificationResult.status, hdata, hs]
  · intro hs
    simp [VerificationResult.is_verified, VerificationResult.status, hdata, hs]

/-- Witness for C6's amended theorem: the empty payload has no status key
and is treated as VERIFIED. -/
theorem claim_C6_verdict_predicates_witness :
    (VerificationResult.mk ([] : Payload)).is_verified = true :=
  (claim_C6_verdict_predicates []).2.2 rfl

/-- C7: the claim is right about the intended design and the code is wrong.
`TensalisRateLimitError` is defined in `tensalis/exceptions.py` and exported
for exactly this purpose, but `_request` never raises it: when every attempt
receives HTTP 429 the loop exits with `last_error` still `None` and raises
the generic `TensalisError("Request failed after retries")` instead of a
rate-limit error.  This theorem evaluates the model at the failing input —
`retries = 3`, every attempt answered 429 with `Retry-After: 2` — showing
the generic base error (not a rate-limit error) surfaces after sleeping the
Retry-After duration on each of the three attempts; it also shows the
absorbed path the claim describes: a 429 followed by a success sleeps 2
seconds, retries, and surfaces no error. -/
theorem claim_C7_rate_limit_error :
    (tensalisRequest (fun _ => .response ⟨429, some 2, []⟩) 3 30).result =
      .error (.base "Request failed after retries") ∧
    raisedRateLimit (tensalisRequest (fun _ => .response ⟨429, some 2, []⟩) 3 30) = false ∧
    (tensalisRequest (fun _ => .response ⟨429, some 2, []⟩) 3 30).sleeps = [2, 2, 2] ∧
    (tensalisRequest (fun _ => .response ⟨429, some 2, []⟩) 3 30).attemptsMade = 3 ∧
    (tensalisRequest (fun i => if i = 0 then .response ⟨429, some 2, []⟩
        else .response ⟨200, none, [("status", JValue.jstr "VERIFIED")]⟩) 3 30).result =
      .ok [("status", JValue.jstr "VERIFIED")] ∧
    (tensalisRequest (fun i => if i = 0 then .response ⟨429, some 2, []⟩
        else .response ⟨200, none, [("status", JValue.jstr "VERIFIED")]⟩) 3 30).sleeps =
      [2] ∧
    (tensalisRequest (fun i => if i = 0 then .response ⟨429, some 2, []⟩
        else .response ⟨200, none, [("status", JValue.jstr "VERIFIED")]⟩) 3 30).attemptsMade
      = 2 :=
  ⟨rfl, rfl, rfl, rfl, rfl, rfl, rfl⟩

/-- C8 counterexample: calling `verify` with an empty response text and an
empty context raises no validation error and still sends the request to the
transport — the claimed client-side validation does not exist in the code. -/
theorem claim_C8_counterexample :
    (verify (fun _ => Except.ok ([] : Payload)) "" (.inr []) none).requestsSent =
      [⟨"", [], none⟩] ∧
    raisedValidation (verify (fun _ => Except.ok ([] : Payload)) "" (.inr []) none) =
      false ∧
    ¬ (verify (fun _ => Except.ok ([] : Payload)) "" (.inr []) none).requestsSent = [] :=
  ⟨rfl, rfl, by decide⟩

/-- C8 (amended): `verify` performs no client-side emptiness validation.
For every call — including those with empty response text or empty
context — exactly one request, the built payload, is sent to the transport,
and a validation error surfaces only if the transport itself produced one
(the client adds none; the spec marks this check as recommended but not
enforced by the reference implementation). -/
theorem claim_C8_no_validation
    (transport : RequestPayload → Except TensalisErr Payload)
    (response : String) (context : CtxArg) (metadata : Option Payload) :
    (verify transport response context metadata).requestsSent =
      [verify_request response context metadata] ∧
    raisedValidation (verify transport response context metadata) =
      validationOutcome (transport (verify_request response context metadata)) := by
  refine ⟨rfl, ?_⟩
  cases h : transport (verify_request response context metadata) with
  | error e => simp [verify, raisedValidation, validationOutcome, h, Except.map]
  | ok d => simp [verify, raisedValidation, validationOutcome, h, Except.map]

/-- C9: for every response text and string context, `verify` builds and
sends exactly the same request payload for the string context as for the
singleton-list context — the string is normalized to a singleton sequence
under `reference_facts` — with identical observable behaviour, and
`verify_stream` normalizes its context the same way at session start,
producing identical traces. -/
theorem claim_C9_context_normalization
    (transport : RequestPayload → Except TensalisErr Payload)
    (s c : String) (metadata : Option Payload) (src : List String) (k : Nat) :
    verify_request s (.inl c) metadata = verify_request s (.inr [c]) metadata ∧
    (verify_request s (.inl c) metadata).reference_facts = [c] ∧
    verify transport s (.inl c) metadata = verify transport s (.inr [c]) metadata ∧
    verify_stream transport src (.inl c) k = verify_stream transport src (.inr [c]) k :=
  ⟨rfl, rfl, rfl, rfl⟩

/-- C10: in every unit emitted by `verify_stream`, the result field is
`none` exactly when the unit is not a terminal blocked unit: PENDING
pass-through units and units emitted after a non-blocked (VERIFIED or
WARNING) check carry no verdict payload, and the full verdict payload is
attached only to a unit whose status is BLOCKED. -/
theorem claim_C10_result_only_when_blocked
    (transport : RequestPayload → Except TensalisErr Payload)
    (src : List String) (context : CtxArg) (k : Nat) (u : EmittedUnit)
    (hu : u ∈ (verify_stream transport src context k).units) :
    u.result = none ↔ ¬ u.status = JValue.jstr "BLOCKED" := by
  rw [verify_stream_def] at hu
  exact streamGo_result_iff transport (normalizeContext context) k src "" 0 u hu

/-- Witness for C10 at a concrete input: the PENDING pass-through unit for
the sub-threshold chunk `"x"` carries no result payload. -/
theorem claim_C10_result_only_when_blocked_witness :
    (⟨"x", JValue.jstr "PENDING", none⟩ : EmittedUnit) ∈
      (verify_stream (fun _ => Except.ok [("status", JValue.jstr "VERIFIED")] :
        RequestPayload → Except TensalisErr Payload) ["x"] (.inr ["c"]) 5).units ∧
    ((⟨"x", JValue.jstr "PENDING", none⟩ : EmittedUnit).result = none ↔
      ¬ (⟨"x", JValue.jstr "PENDING", none⟩ : EmittedUnit).status =
        JValue.jstr "BLOCKED") :=
  ⟨by decide, claim_C10_result_only_when_blocked
    (fun _ => Except.ok [("status", JValue.jstr "VERIFIED")] :
      RequestPayload → Except TensalisErr Payload)
    ["x"] (.inr ["c"]) 5 ⟨"x", JValue.jstr "PENDING", none⟩ (by decide)⟩
